import Mathlib

/-!
Verification development for the agent-trace repository.

This file gives a shallow embedding of the core algorithms of the
repository — the record schema validator (src/lib/schemas.ts), the notes
store consolidation and write path (git-notes), the staging-buffer drain
(src/lib/git-hooks.ts), the unified-diff cursor parser
(src/analyze/git-utils.ts), the commit attribution matcher, and the
report aggregator (src/analyze/report-generator.ts) — and proves or
refutes the specification's claims about them.

Conventions of the embedding:
- JavaScript numbers holding line counts are modelled as `Int`
  (the schema only constrains them with integer and minimum checks).
- JavaScript `Map`/`Set` values used only through get/set/add are
  modelled as association lists or as their lookup functions, preserving
  insertion order where the code iterates over them.
- Fallible subprocess calls are modelled by passing their outcome in as
  a value; JSON bodies are modelled by a small JSON-value type whose
  atoms are either structurally record-shaped objects or anything else.
- Records whose fields are supplied unvalidated keep their raw types;
  the validator is a Boolean predicate over them, mirroring zod parsing.
-/

/-- Contributor object: `ContributorSchema` in src/lib/schemas.ts.
The `type` field is kept as a raw string; the validator restricts it. -/
structure Contributor where
  type : String
  model_id : Option String
deriving DecidableEq, Repr

/-- Line range: `RangeSchema` in src/lib/schemas.ts. -/
structure Range where
  start_line : Int
  end_line : Int
  content_hash : Option String
  contributor : Option Contributor
deriving DecidableEq, Repr

/-- Related resource: `RelatedResourceSchema` in src/lib/schemas.ts. -/
structure RelatedResource where
  type : String
  url : String
deriving DecidableEq, Repr

/-- Conversation: `ConversationSchema` in src/lib/schemas.ts. -/
structure Conversation where
  url : Option String
  contributor : Option Contributor
  ranges : List Range
  related : Option (List RelatedResource)
deriving DecidableEq, Repr

/-- Per-file entry: `FileSchema` in src/lib/schemas.ts (TS type `File`). -/
structure File where
  path : String
  conversations : List Conversation
deriving DecidableEq, Repr

/-- Version-control origin: `VcsSchema` in src/lib/schemas.ts. -/
structure Vcs where
  type : String
  revision : String
deriving DecidableEq, Repr

/-- Producing tool: `ToolSchema` in src/lib/schemas.ts. -/
structure Tool where
  name : String
  version : Option String
deriving DecidableEq, Repr

/-- Attribution record: `TraceRecordSchema` in src/lib/schemas.ts.
`metadata` is `z.record(z.string(), z.unknown())`; the embedding keeps
the string-valued entries, which are the only ones the code consults
(`metadata?.conversation_id as string`). -/
structure TraceRecord where
  version : String
  id : String
  timestamp : String
  vcs : Option Vcs
  tool : Option Tool
  files : List File
  metadata : Option (List (String × String))
deriving DecidableEq, Repr

/-! ## The validator (src/lib/schemas.ts, via zod)

The leaf string validators model the checks zod performs for
`.regex(/^[0-9]+\.[0-9]+\.[0-9]+$/)`, `.uuid()`, `.datetime()` and
`.url()`. zod's `datetime()` (without options) accepts
`YYYY-MM-DDTHH:MM:SS`, an optional fractional-second part, and a
mandatory `Z`; `.uuid()` accepts five hyphen-separated hexadecimal
groups of lengths 8-4-4-4-12; `.url()` accepts what `new URL` accepts,
modelled here as an alphabetic-initial scheme followed by a colon. -/

/-- Split a character list on a separator character (the behaviour of
`String.split` with a single-character separator). -/
def splitOnChar (sep : Char) : List Char → List (List Char)
  | [] => [[]]
  | c :: cs =>
    if c == sep then [] :: splitOnChar sep cs
    else
      match splitOnChar sep cs with
      | [] => [[c]]
      | g :: gs => (c :: g) :: gs

/-- `^[0-9]+\.[0-9]+\.[0-9]+$`: three non-empty digit groups. -/
def versionOk (s : String) : Bool :=
  match splitOnChar '.' s.data with
  | [a, b, c] =>
      !a.isEmpty && !b.isEmpty && !c.isEmpty &&
      a.all Char.isDigit && b.all Char.isDigit && c.all Char.isDigit
  | _ => false

/-- Hexadecimal digit as accepted by the uuid pattern. -/
def isHexDigit (c : Char) : Bool :=
  c.isDigit || ('a' ≤ c && c ≤ 'f') || ('A' ≤ c && c ≤ 'F')

/-- `z.string().uuid()`: 8-4-4-4-12 hexadecimal groups. -/
def uuidOk (s : String) : Bool :=
  match splitOnChar '-' s.data with
  | [a, b, c, d, e] =>
      a.length == 8 && b.length == 4 && c.length == 4 && d.length == 4 &&
      e.length == 12 &&
      (a ++ b ++ c ++ d ++ e).all isHexDigit
  | _ => false

/-- One-or-more digits then a final `Z`. -/
def digitsThenZ : List Char → Bool
  | ['Z'] => true
  | c :: cs => c.isDigit && digitsThenZ cs
  | [] => false

/-- The tail of a datetime after the seconds: `Z` or `.digits+Z`. -/
def datetimeTail : List Char → Bool
  | ['Z'] => true
  | '.' :: c :: cs => c.isDigit && digitsThenZ (c :: cs)
  | _ => false

/-- `z.string().datetime()`: `\d{4}-\d{2}-\d{2}T\d{2}:\d{2}:\d{2}(\.\d+)?Z`. -/
def datetimeOk (s : String) : Bool :=
  match s.data with
  | y1 :: y2 :: y3 :: y4 :: '-' :: m1 :: m2 :: '-' :: d1 :: d2 :: 'T' ::
    h1 :: h2 :: ':' :: n1 :: n2 :: ':' :: s1 :: s2 :: rest =>
      [y1, y2, y3, y4, m1, m2, d1, d2, h1, h2, n1, n2, s1, s2].all Char.isDigit &&
      datetimeTail rest
  | _ => false

/-- Scheme characters up to the mandatory colon of a URL. -/
def schemeRest : List Char → Bool
  | [] => false
  | ':' :: _ => true
  | c :: cs => (c.isAlpha || c.isDigit || c == '+' || c == '-' || c == '.') && schemeRest cs

/-- `z.string().url()`: a parseable URL, i.e. a scheme then a colon. -/
def urlOk (s : String) : Bool :=
  match s.data with
  | c :: cs => c.isAlpha && schemeRest cs
  | [] => false

/-- `ContributorTypeSchema`: one of the four literal strings. -/
def contributorTypeOk (s : String) : Bool :=
  s == "human" || s == "ai" || s == "mixed" || s == "unknown"

/-- `ContributorSchema`: enum type, optional `model_id` of length ≤ 250. -/
def contributorOk (c : Contributor) : Bool :=
  contributorTypeOk c.type &&
  (match c.model_id with
   | none => true
   | some m => m.length ≤ 250)

/-- `RangeSchema`: both lines are integers with `.min(1)`.
No relation between `start_line` and `end_line` is checked. -/
def rangeOk (r : Range) : Bool :=
  1 ≤ r.start_line && 1 ≤ r.end_line &&
  (match r.contributor with
   | none => true
   | some c => contributorOk c)

/-- `RelatedResourceSchema`: any `type`, a valid `url`. -/
def relatedResourceOk (r : RelatedResource) : Bool :=
  urlOk r.url

/-- `ConversationSchema`. -/
def conversationOk (c : Conversation) : Bool :=
  (match c.url with
   | none => true
   | some u => urlOk u) &&
  (match c.contributor with
   | none => true
   | some k => contributorOk k) &&
  c.ranges.all rangeOk &&
  (match c.related with
   | none => true
   | some rs => rs.all relatedResourceOk)

/-- `FileSchema`: any path, validated conversations. -/
def fileOk (f : File) : Bool :=
  f.conversations.all conversationOk

/-- `VcsSchema`: enum type, any revision string. -/
def vcsOk (v : Vcs) : Bool :=
  v.type == "git" || v.type == "jj" || v.type == "hg" || v.type == "svn"

/-- `TraceRecordSchema.parse` succeeds exactly when this is true. -/
def traceRecordOk (t : TraceRecord) : Bool :=
  versionOk t.version && uuidOk t.id && datetimeOk t.timestamp &&
  (match t.vcs with
   | none => true
   | some v => vcsOk v) &&
  t.files.all fileOk

/-! ## Consolidation and the notes-store write path (git-notes)

`consolidateTraces` groups records by a conversation key and merges each
group of size > 1 into its first record. The JavaScript `Map` of groups
is modelled as an association list in insertion order; pushing a record
onto an existing group appends at the end of that group's list. -/

/-- JavaScript truthiness for an optional string: `undefined` and the
empty string are falsy. -/
def truthyStr : Option String → Option String
  | some s => if s = "" then none else some s
  | none => none

/-- `trace.files[0]?.conversations[0]?.url`. -/
def firstConvUrl (t : TraceRecord) : Option String :=
  match t.files with
  | [] => none
  | f :: _ =>
    match f.conversations with
    | [] => none
    | c :: _ => c.url

/-- `trace.metadata?.conversation_id`. -/
def metaConversationId (t : TraceRecord) : Option String :=
  match t.metadata with
  | none => none
  | some m => m.lookup "conversation_id"

/-- The grouping key of `consolidateTraces`:
`files[0]?.conversations[0]?.url || metadata?.conversation_id || "no-conversation"`. -/
def conversationKeyOf (t : TraceRecord) : String :=
  match truthyStr (firstConvUrl t) with
  | some u => u
  | none =>
    match truthyStr (metaConversationId t) with
    | some cid => cid
    | none => "no-conversation"

/-- Append a record to its group, creating the group at the end of the
map when the key is new (JS `Map` insertion order). -/
def addToGroups (gs : List (String × List TraceRecord)) (k : String)
    (t : TraceRecord) : List (String × List TraceRecord) :=
  match gs with
  | [] => [(k, [t])]
  | (k', ts) :: rest =>
    if k' = k then (k', ts ++ [t]) :: rest
    else (k', ts) :: addToGroups rest k t

/-- The `groups` map after the first loop of `consolidateTraces`. -/
def groupByConversation (traces : List TraceRecord) :
    List (String × List TraceRecord) :=
  traces.foldl (fun gs t => addToGroups gs (conversationKeyOf t) t) []

/-- `${range.start_line}-${range.end_line}`, the dedup key of a range. -/
def rangeKey (r : Range) : String :=
  toString r.start_line ++ "-" ++ toString r.end_line

/-- The conversation-matching test of the merge loop:
`c.contributor?.type === conv.contributor?.type &&
 c.contributor?.model_id === conv.contributor?.model_id`. -/
def sameContributorKey (c conv : Conversation) : Bool :=
  (c.contributor.map Contributor.type == conv.contributor.map Contributor.type) &&
  (c.contributor.bind Contributor.model_id == conv.contributor.bind Contributor.model_id)

/-- The loop of the range union: push each incoming range whose key is
not in the seen set, growing the accumulated list and the set together. -/
def addRangesGo (acc : List Range) (keys : List String) :
    List Range → List Range
  | [] => acc
  | r :: rs =>
    if keys.contains (rangeKey r) then addRangesGo acc keys rs
    else addRangesGo (acc ++ [r]) (keys ++ [rangeKey r]) rs

/-- Range union of the merge loop: seed a key set from the existing
ranges, then push each incoming range whose key is unseen. -/
def addRanges (existing newRanges : List Range) : List Range :=
  addRangesGo existing (existing.map rangeKey) newRanges

/-- Merge one conversation into a conversation list: union ranges into
the first entry with the same contributor key, else append. -/
def mergeConversation (convs : List Conversation) (conv : Conversation) :
    List Conversation :=
  match convs with
  | [] => [conv]
  | c :: rest =>
    if sameContributorKey c conv then
      { c with ranges := addRanges c.ranges conv.ranges } :: rest
    else
      c :: mergeConversation rest conv

/-- Merge a file's conversations into an entry's conversation list. -/
def mergeConversations (convs : List Conversation)
    (newConvs : List Conversation) : List Conversation :=
  newConvs.foldl mergeConversation convs

/-- Fold one file of one group member into the `fileMap`: ensure an
entry for the path exists (created empty, at the end), then merge the
file's conversations into it. -/
def addFileToMap (fm : List File) (f : File) : List File :=
  match fm with
  | [] => [{ path := f.path, conversations := mergeConversations [] f.conversations }]
  | e :: rest =>
    if e.path = f.path then
      { e with conversations := mergeConversations e.conversations f.conversations } :: rest
    else
      e :: addFileToMap rest f

/-- The `fileMap` built from all members of a group, in order. -/
def buildFileMap (g : List TraceRecord) : List File :=
  g.foldl (fun fm t => t.files.foldl addFileToMap fm) []

/-- The consolidated record of a group: the first record of the group
with its `files` replaced by the merged file map (the spread keeps the
base record's id, timestamp, version, vcs, tool and metadata). -/
def mergeGroup (base : TraceRecord) (g : List TraceRecord) : TraceRecord :=
  { base with files := buildFileMap g }

/-- Output of one group: singleton groups pass through, larger groups
merge into their first record. -/
def consolidateGroup : List TraceRecord → List TraceRecord
  | [] => []
  | [t] => [t]
  | t :: ts => [mergeGroup t (t :: ts)]

/-- `consolidateTraces` of git-notes: inputs of length ≤ 1 are returned
unchanged, otherwise records are grouped by conversation key and each
group is consolidated. -/
def consolidateTraces (traces : List TraceRecord) : List TraceRecord :=
  if traces.length ≤ 1 then traces
  else (groupByConversation traces).flatMap fun kg => consolidateGroup kg.2

/-- The state transform of `writeTracesToNotes` on the record set stored
for one revision: an empty delivery returns at once; otherwise records
whose id already exists are dropped, the union is consolidated, and the
consolidated set is what the forced note overwrite stores. -/
def writeTracesToNotes (existing traces : List TraceRecord) :
    List TraceRecord :=
  if traces.isEmpty then existing
  else
    let existingIds := existing.map TraceRecord.id
    let newTraces := traces.filter fun t => !(existingIds.contains t.id)
    consolidateTraces (existing ++ newTraces)

/-! ## The notes-store read path (readTracesFromNotes)

The `git notes show` subprocess outcome is passed in as a value. A
non-empty note body is a JSON value: either an array or a single value;
each element is schema-parsed, and elements that fail to parse are
warned about and skipped. A body that is not valid JSON makes
`JSON.parse` throw an error without an exit status, which the catch
re-throws; a subprocess failure with exit status 1 or 128 is the known
not-found condition and yields the empty list. -/

/-- A JSON value that is not an array: either it has exactly the
record shape, or it is anything else (and then fails schema parsing). -/
inductive JAtom where
  | record (r : TraceRecord)
  | other
deriving DecidableEq, Repr

/-- A parsed JSON note body: an array of values or a single value.
Array elements that are themselves arrays also fail schema parsing, so
they are covered by `JAtom.other`. -/
inductive JVal where
  | atom (a : JAtom)
  | arr (xs : List JAtom)
deriving DecidableEq, Repr

/-- `TraceRecordSchema.parse` on one JSON element: succeeds exactly on
record-shaped values that validate. -/
def parseTraceRecord : JAtom → Option TraceRecord
  | .record r => if traceRecordOk r then some r else none
  | .other => none

/-- The trimmed note body: absent/empty, invalid JSON, or a JSON value. -/
inductive NoteContent where
  | empty
  | malformed
  | val (v : JVal)
deriving DecidableEq, Repr

/-- Outcome of the `git notes show` subprocess call. -/
inductive GitShowResult where
  | ok (content : NoteContent)
  | err (status : Int)
deriving DecidableEq, Repr

/-- Failures that `readTracesFromNotes` propagates to its caller. -/
inductive NotesReadError where
  | gitError (status : Int)
  | jsonError
deriving DecidableEq, Repr

/-- `readTracesFromNotes` of git-notes, as a function of the subprocess
outcome for the requested revision. -/
def readTracesFromNotes (res : GitShowResult) :
    Except NotesReadError (List TraceRecord) :=
  match res with
  | .ok .empty => .ok []
  | .ok .malformed => .error .jsonError
  | .ok (.val v) =>
    let records := match v with
      | .arr xs => xs
      | .atom a => [a]
    .ok (records.filterMap parseTraceRecord)
  | .err status =>
    if status == 1 || status == 128 then .ok []
    else .error (.gitError status)

/-! ## The staging-buffer drain (attachStagingTraces, src/lib/git-hooks.ts)

The staging file, when present, is a list of lines; each line is either
invalid JSON (`none`) or a JSON value. A line is kept exactly when it
parses and validates as a record; kept records have `vcs.revision`
rewritten to the target commit. When any record survives, the batch is
written through `writeTracesToNotes` and the staging file is deleted. -/

/-- Rewrite `trace.vcs.revision` to the attached commit (only when a
`vcs` block is present, as in the source). -/
def setVcsRevision (sha : String) (t : TraceRecord) : TraceRecord :=
  match t.vcs with
  | some v => { t with vcs := some { v with revision := sha } }
  | none => t

/-- State touched by the drain: the staging buffer (if the file exists,
its parsed non-blank lines) and the record set stored for HEAD. -/
structure RepoState where
  staging : Option (List (Option JAtom))
  stored : List TraceRecord
deriving DecidableEq, Repr

/-- `attachStagingTraces`: no-op without a staging file or without a
HEAD commit; otherwise parse and validate each line independently
(malformed lines are skipped), rewrite each record's revision, and if
any record survives, write the batch and delete the buffer. -/
def attachStagingTraces (st : RepoState) (head : Option String) :
    RepoState :=
  match st.staging with
  | none => st
  | some lines =>
    match head with
    | none => st
    | some sha =>
      let traces := lines.filterMap fun l =>
        (l.bind parseTraceRecord).map (setVcsRevision sha)
      if traces.isEmpty then st
      else { staging := none, stored := writeTracesToNotes st.stored traces }

/-! ## The unified-diff cursor parser (getCommitInfo, src/analyze/git-utils.ts)

The loop over the `--unified=0` diff body keeps a current file and a
line cursor. String prefix tests and trimming are modelled on the
character list underlying the string, exactly as
`String.prototype.startsWith` and `trim` behave. -/

/-- One recorded line change. -/
structure LineChange where
  line : Int
  type : String
deriving DecidableEq, Repr

/-- One file of the `--numstat` pass, whose `changes` the diff loop
fills in. -/
structure FileChange where
  path : String
  additions : Int
  deletions : Int
  changes : List LineChange
deriving DecidableEq, Repr

/-- `String.prototype.startsWith` on character lists. -/
def startsWithL : List Char → List Char → Bool
  | _, [] => true
  | [], _ :: _ => false
  | c :: cs, p :: ps => c == p && startsWithL cs ps

/-- `line.startsWith(pat)`. -/
def startsWithS (s pat : String) : Bool :=
  startsWithL s.data pat.data

/-- Leading and trailing whitespace removal (`trim`). -/
def trimL (cs : List Char) : List Char :=
  ((cs.dropWhile Char.isWhitespace).reverse.dropWhile Char.isWhitespace).reverse

/-- Truthiness of `line.trim()`: some non-whitespace character exists. -/
def trimNonempty (cs : List Char) : Bool :=
  cs.any fun c => !c.isWhitespace

/-- Split a leading run of decimal digits from a character list. -/
def splitDigits : List Char → List Char × List Char
  | [] => ([], [])
  | c :: cs =>
    if c.isDigit then
      let (d, r) := splitDigits cs
      (c :: d, r)
    else ([], c :: cs)

/-- Value of a digit run. -/
def digitsToNat (ds : List Char) : Nat :=
  ds.foldl (fun acc c => acc * 10 + (c.toNat - '0'.toNat)) 0

/-- The optional `,count` group of a hunk header. -/
def parseOptCommaCount : List Char → Option (List Char)
  | ',' :: cs =>
    let (d, r) := splitDigits cs
    if d = [] then none else some r
  | cs => some cs

/-- Anchored model of the hunk-header pattern
`@@ -\d+(?:,\d+)? \+(\d+)(?:,(\d+))? @@`, returning the captured
new-side start line. -/
def parseHunkNewStart (line : String) : Option Int :=
  match line.data with
  | '@' :: '@' :: ' ' :: '-' :: rest =>
    let (d1, r1) := splitDigits rest
    if d1 = [] then none
    else
      match parseOptCommaCount r1 with
      | none => none
      | some r2 =>
        match r2 with
        | ' ' :: '+' :: r3 =>
          let (d2, r4) := splitDigits r3
          if d2 = [] then none
          else
            match parseOptCommaCount r4 with
            | none => none
            | some r5 =>
              match r5 with
              | ' ' :: '@' :: '@' :: _ => some (Int.ofNat (digitsToNat d2))
              | _ => none
        | _ => none
  | _ => none

/-- Parser state of the diff loop. -/
structure DiffState where
  currentFile : String
  lineNumber : Int
  files : List FileChange
deriving DecidableEq, Repr

/-- `files.find(f => f.path === currentFile)` followed by a push onto
that file's `changes` (first matching entry only). -/
def pushChange (files : List FileChange) (path : String)
    (ch : LineChange) : List FileChange :=
  match files with
  | [] => []
  | f :: rest =>
    if f.path == path then { f with changes := f.changes ++ [ch] } :: rest
    else f :: pushChange rest path ch

/-- One iteration of the diff-body loop of `getCommitInfo`. -/
def processDiffLine (st : DiffState) (line : String) : DiffState :=
  if startsWithS line "+++ b/" || startsWithS line "--- a/" then
    let filePath := String.mk (trimL (line.data.drop 6))
    if filePath ≠ "" && filePath ≠ "/dev/null" then
      { st with currentFile := filePath, lineNumber := 0 }
    else st
  else if startsWithS line "@@" then
    match parseHunkNewStart line with
    | some n => { st with lineNumber := n }
    | none => st
  else if startsWithS line "+" && !startsWithS line "+++" then
    if st.files.any fun f => f.path == st.currentFile then
      { st with
        files := pushChange st.files st.currentFile
          { line := st.lineNumber, type := "added" },
        lineNumber := st.lineNumber + 1 }
    else st
  else if startsWithS line "-" && !startsWithS line "---" then
    if st.files.any fun f => f.path == st.currentFile then
      { st with
        files := pushChange st.files st.currentFile
          { line := st.lineNumber, type := "removed" } }
    else st
  else if !startsWithS line "@" && trimNonempty line.data then
    { st with lineNumber := st.lineNumber + 1 }
  else st

/-! ## The diff attribution matcher (analyzeCommit)

`analyzeCommit` filters stored ranges per changed file against the
changed-line set: a range is kept when some change's line falls inside
it, or unconditionally when the file's change set is empty. -/

/-- One emitted range with its owning contributor annotation. -/
structure AnalyzedRange where
  start_line : Int
  end_line : Int
  contributor : Option Contributor
deriving DecidableEq, Repr

/-- One entry of the analysis result. -/
structure FileAnalysis where
  path : String
  ranges : List AnalyzedRange
  models : List String
deriving DecidableEq, Repr

/-- `change.line >= range.start_line && change.line <= range.end_line`
for some recorded change. -/
def overlapsChanges (changes : List LineChange) (r : Range) : Bool :=
  changes.any fun ch => r.start_line ≤ ch.line && ch.line ≤ r.end_line

/-- `conversation.contributor?.type || "unknown"`. -/
def contributorTypeJS (conv : Conversation) : String :=
  match conv.contributor with
  | some c => if c.type = "" then "unknown" else c.type
  | none => "unknown"

/-- JS `Set` insertion: append when absent. -/
def addSet (s : List String) (x : String) : List String :=
  if s.contains x then s else s ++ [x]

/-- The ranges `analyzeCommit` collects for one changed file: iterate
the traces that mention the path, their matching file entries, each
conversation, and keep a range when it overlaps a changed line or the
change set is empty. -/
def analyzedRangesFor (traces : List TraceRecord) (fc : FileChange) :
    List AnalyzedRange :=
  let fileTraces := traces.filter fun t => t.files.any fun f => f.path == fc.path
  fileTraces.flatMap fun t =>
    t.files.flatMap fun f =>
      if f.path == fc.path then
        f.conversations.flatMap fun conv =>
          let contributorType := contributorTypeJS conv
          let modelId := conv.contributor.bind Contributor.model_id
          conv.ranges.filterMap fun r =>
            if overlapsChanges fc.changes r || fc.changes.isEmpty then
              some { start_line := r.start_line, end_line := r.end_line,
                     contributor := some ⟨contributorType, modelId⟩ }
            else none
      else []

/-- The distinct truthy model ids `analyzeCommit` collects for one
changed file, in insertion order. -/
def analyzedModelsFor (traces : List TraceRecord) (fc : FileChange) :
    List String :=
  let fileTraces := traces.filter fun t => t.files.any fun f => f.path == fc.path
  fileTraces.foldl
    (fun ms t =>
      t.files.foldl
        (fun ms f =>
          if f.path == fc.path then
            f.conversations.foldl
              (fun ms conv =>
                match truthyStr (conv.contributor.bind Contributor.model_id) with
                | some m => addSet ms m
                | none => ms)
              ms
          else ms)
        ms)
    []

/-- `analyzeCommit` restricted to its pure core: one entry per changed
file that has stored traces and at least one surviving range. -/
def analyzeCommit (traces : List TraceRecord)
    (commitFiles : List FileChange) : List FileAnalysis :=
  commitFiles.filterMap fun fc =>
    let rs := analyzedRangesFor traces fc
    if rs.isEmpty then none
    else some { path := fc.path, ranges := rs,
                models := analyzedModelsFor traces fc }

/-- The ranges recorded for a path in a stored record set — the measure
the matcher's output is compared against. -/
def recordedRangesFor (traces : List TraceRecord) (path : String) :
    List Range :=
  traces.flatMap fun t =>
    t.files.flatMap fun f =>
      if f.path == path then f.conversations.flatMap Conversation.ranges
      else []

/-! ## The aggregator (generateReport, src/analyze/report-generator.ts)

The two JavaScript `Map` counters are modelled as their lookup
functions (`get(k) || 0` reads, `set(k, v)` pointwise updates); the
`Set` of file paths as an insertion-ordered duplicate-free list. -/

/-- Summary statistics produced by `generateReport`. -/
structure ReportStats where
  totalTraces : Nat
  totalFiles : Nat
  aiContributions : Nat
  humanContributions : Nat
  mixedContributions : Nat
  models : String → Nat
  tools : String → Nat

/-- `map.set(k, (map.get(k) || 0) + n)`. -/
def bumpCounter (m : String → Nat) (k : String) (n : Nat) : String → Nat :=
  fun k' => if k' = k then m k + n else m k'

/-- Fold one conversation into the statistics. -/
def reportConvStep (s : ReportStats) (conv : Conversation) : ReportStats :=
  let contributorType := contributorTypeJS conv
  let rangeCount := conv.ranges.length
  let s :=
    if contributorType = "ai" then
      { s with aiContributions := s.aiContributions + rangeCount }
    else if contributorType = "human" then
      { s with humanContributions := s.humanContributions + rangeCount }
    else if contributorType = "mixed" then
      { s with mixedContributions := s.mixedContributions + rangeCount }
    else s
  match truthyStr (conv.contributor.bind Contributor.model_id) with
  | some m => { s with models := bumpCounter s.models m rangeCount }
  | none => s

/-- Fold one file into the statistics and the path set. -/
def reportFileStep (acc : ReportStats × List String) (f : File) :
    ReportStats × List String :=
  (f.conversations.foldl reportConvStep acc.1, addSet acc.2 f.path)

/-- Fold one record: its files and conversations, then one tick for a
truthy tool name. -/
def reportTraceStep (acc : ReportStats × List String) (t : TraceRecord) :
    ReportStats × List String :=
  let acc := t.files.foldl reportFileStep acc
  match t.tool with
  | some tool =>
    if tool.name = "" then acc
    else ({ acc.1 with tools := bumpCounter acc.1.tools tool.name 1 }, acc.2)
  | none => acc

/-- `generateReport`: the pure fold over the record list. -/
def generateReport (traces : List TraceRecord) : ReportStats :=
  let init : ReportStats :=
    { totalTraces := traces.length, totalFiles := 0,
      aiContributions := 0, humanContributions := 0, mixedContributions := 0,
      models := fun _ => 0, tools := fun _ => 0 }
  let (stats, fileSet) := traces.foldl reportTraceStep (init, [])
  { stats with totalFiles := fileSet.length }

/-! ## Specification-side measures

These definitions express the quantities the specification's claims
talk about, independently of the folds that compute them. -/

/-- All conversations of a record set, across files. -/
def allConversations (traces : List TraceRecord) : List Conversation :=
  (traces.flatMap TraceRecord.files).flatMap File.conversations

/-- Total ranges of the conversations of a list with a given
contributor type. -/
def convTypeTotal (convs : List Conversation) (ty : String) : Nat :=
  ((convs.filter fun c => contributorTypeJS c = ty).map
    fun c => c.ranges.length).sum

/-- Total ranges of the conversations of a list carrying a given truthy
model id. -/
def convModelTotal (convs : List Conversation) (m : String) : Nat :=
  ((convs.filter fun c =>
      truthyStr (c.contributor.bind Contributor.model_id) = some m).map
    fun c => c.ranges.length).sum

/-- Total ranges of the conversations with a given contributor type. -/
def typeRangeTotal (traces : List TraceRecord) (ty : String) : Nat :=
  convTypeTotal (allConversations traces) ty

/-- Total ranges of the conversations carrying a given model id. -/
def modelRangeTotal (traces : List TraceRecord) (m : String) : Nat :=
  convModelTotal (allConversations traces) m

/-- Number of records whose tool carries a given name. -/
def toolTraceTotal (traces : List TraceRecord) (name : String) : Nat :=
  (traces.filter fun t =>
    truthyStr (t.tool.map Tool.name) = some name).length

/-- Number of distinct file paths across a record set. -/
def distinctFileCount (traces : List TraceRecord) : Nat :=
  ((traces.flatMap TraceRecord.files).map File.path).toFinset.card

/-- Strict lexicographic order on character lists, by code point.
RFC 3339 `Z` timestamps of equal textual shape compare chronologically
exactly in this order. -/
def lexLtChars : List Char → List Char → Bool
  | [], [] => false
  | [], _ :: _ => true
  | _ :: _, [] => false
  | a :: as, b :: bs =>
    a.toNat < b.toNat || (a.toNat == b.toNat && lexLtChars as bs)

/-- Chronological order of two equal-shape RFC 3339 timestamps. -/
def timestampLt (s1 s2 : String) : Bool :=
  lexLtChars s1.data s2.data

/-! ## Concrete records for counterexamples and witnesses -/

/-- A schema-valid conversation keyed by metadata (no url). -/
def convNoUrl (rs : List Range) : Conversation :=
  { url := none,
    contributor := some { type := "ai", model_id := some "vendor/model-a" },
    ranges := rs, related := none }

/-- A plain range. -/
def mkRange (a b : Int) : Range :=
  { start_line := a, end_line := b, content_hash := none, contributor := none }

/-- Base shape shared by the example records. -/
def baseRecord (id ts : String) : TraceRecord :=
  { version := "1.0.0", id := id, timestamp := ts,
    vcs := some { type := "git", revision := "deadbeef" },
    tool := some { name := "cursor", version := some "1.0" },
    files := [], metadata := some [("conversation_id", "conv-c")] }

/-- Stored record with one file `A` that has no conversations; its
conversation key falls back to `metadata.conversation_id = "conv-c"`. -/
def cE : TraceRecord :=
  { baseRecord "00000000-0000-4000-8000-00000000000e" "2024-01-01T00:00:00Z" with
    files := [{ path := "A", conversations := [] }] }

/-- Delivered record with the same key `"conv-c"` (its first file `B`
has a url-less first conversation) whose second file `A` carries a
conversation with a truthy url. Merging it into `cE` puts that url in
first position of the merged record, so the merged record's
conversation key drifts away from `"conv-c"`. -/
def cR : TraceRecord :=
  { baseRecord "00000000-0000-4000-8000-00000000000f" "2024-01-02T00:00:00Z" with
    files :=
      [{ path := "B", conversations := [convNoUrl [mkRange 1 2]] },
       { path := "A",
         conversations :=
           [{ url := some "https://chat.example/s1",
              contributor := some { type := "ai", model_id := some "vendor/model-a" },
              ranges := [mkRange 3 4], related := none }] }] }

/-- A simple record used to witness the amended idempotency theorem. -/
def wR : TraceRecord :=
  { baseRecord "00000000-0000-4000-8000-000000000001" "2024-01-01T00:00:00Z" with
    files := [{ path := "w.ts", conversations := [convNoUrl [mkRange 1 5]] }] }

/-- First-seen record of a consolidation group, with the later
timestamp. -/
def tsLater : TraceRecord :=
  { baseRecord "00000000-0000-4000-8000-000000000010" "2024-01-02T00:00:00Z" with
    files := [{ path := "f.ts", conversations := [convNoUrl [mkRange 1 2]] }] }

/-- Second record of the same group, with the earlier timestamp. -/
def tsEarlier : TraceRecord :=
  { baseRecord "00000000-0000-4000-8000-000000000011" "2024-01-01T00:00:00Z" with
    files := [{ path := "f.ts", conversations := [convNoUrl [mkRange 3 4]] }] }

/-- Record whose only conversation already holds a duplicated range
pair. -/
def dupA : TraceRecord :=
  { baseRecord "00000000-0000-4000-8000-000000000020" "2024-01-01T00:00:00Z" with
    files := [{ path := "f.ts",
                conversations := [convNoUrl [mkRange 1 2, mkRange 1 2]] }] }

/-- Record of the same group and contributor key whose ranges overlap
the duplicated pair. -/
def dupB : TraceRecord :=
  { baseRecord "00000000-0000-4000-8000-000000000021" "2024-01-02T00:00:00Z" with
    files := [{ path := "f.ts",
                conversations := [convNoUrl [mkRange 1 2, mkRange 3 4]] }] }

/-- Schema-valid record containing a range with
`end_line < start_line`. -/
def invRangeRecord : TraceRecord :=
  { baseRecord "00000000-0000-4000-8000-000000000030" "2024-01-01T00:00:00Z" with
    files := [{ path := "f.ts", conversations := [convNoUrl [mkRange 5 3]] }] }

/-- A diff-parser state whose current file is tracked. -/
def wSt : DiffState :=
  { currentFile := "w.ts", lineNumber := 5,
    files := [{ path := "w.ts", additions := 1, deletions := 0,
                changes := [] }] }

/-- First valid staged record (metadata key `"conv-s1"`). -/
def stagedR1 : TraceRecord :=
  { baseRecord "00000000-0000-4000-8000-000000000041" "2024-01-01T00:00:00Z" with
    files := [{ path := "s1.ts", conversations := [convNoUrl [mkRange 1 3]] }],
    metadata := some [("conversation_id", "conv-s1")] }

/-- Second valid staged record (metadata key `"conv-s2"`). -/
def stagedR2 : TraceRecord :=
  { baseRecord "00000000-0000-4000-8000-000000000042" "2024-01-02T00:00:00Z" with
    files := [{ path := "s2.ts", conversations := [convNoUrl [mkRange 4 6]] }],
    metadata := some [("conversation_id", "conv-s2")] }

/-! # Theorems -/

/-- C10: for every stored record set, delivering an empty record list
to `writeTracesToNotes` returns immediately: the stored set is left
exactly as it was, and in particular no consolidation of previously
stored duplicate records is triggered. -/
theorem writeTracesToNotes_empty_delivery_noop (s : List TraceRecord) :
    writeTracesToNotes s [] = s := rfl

/-- C2, evaluated at the failing input: two records share the
conversation key `"conv-c"`, and the first-seen record carries the
later timestamp. The merged record keeps the first-seen timestamp —
the later one — although the code's own comment (`// Keep earliest
timestamp`) and the claim say the earliest timestamp is kept. -/
theorem consolidate_keeps_first_seen_timestamp :
    (consolidateTraces [tsLater, tsEarlier]).map TraceRecord.timestamp
        = [tsLater.timestamp] ∧
    timestampLt tsEarlier.timestamp tsLater.timestamp = true :=
  ⟨by decide, by decide⟩

/-- C1 fails as stated: writing `cR` twice onto the stored set `[cE]`
does not equal writing it once. The first write merges `cR` into `cE`
(dropping `cR`'s id) and the merged record's conversation key drifts to
the url that lands in first position, so the second delivery is neither
dropped by id nor re-absorbed by consolidation. -/
theorem write_twice_differs_from_once :
    writeTracesToNotes (writeTracesToNotes [cE] [cR]) [cR]
      ≠ writeTracesToNotes [cE] [cR] := by decide

/-- C1 (amended): if the stored set produced by the first write still
contains `r`'s id, and that stored set is a fixed point of
consolidation, then the second delivery of `r` is dropped before
serialization and the stored set is unchanged. -/
theorem write_idempotent_of_id_kept (s : List TraceRecord)
    (r : TraceRecord)
    (h1 : ((writeTracesToNotes s [r]).map TraceRecord.id).contains r.id
        = true)
    (h2 : consolidateTraces (writeTracesToNotes s [r])
        = writeTracesToNotes s [r]) :
    writeTracesToNotes (writeTracesToNotes s [r]) [r]
      = writeTracesToNotes s [r] := by
  have hpred :
      (!(((writeTracesToNotes s [r]).map TraceRecord.id).contains r.id))
        = false := by
    rw [h1]; rfl
  have hfilter :
      [r].filter
        (fun t => !(((writeTracesToNotes s [r]).map TraceRecord.id).contains
          t.id)) = [] := by
    simp only [List.filter_cons, List.filter_nil, hpred]
    simp
  calc writeTracesToNotes (writeTracesToNotes s [r]) [r]
      = consolidateTraces (writeTracesToNotes s [r] ++
          [r].filter (fun t =>
            !(((writeTracesToNotes s [r]).map TraceRecord.id).contains
              t.id))) := rfl
    _ = consolidateTraces (writeTracesToNotes s [r]) := by
          rw [hfilter, List.append_nil]
    _ = writeTracesToNotes s [r] := h2

/-- Witness for the amended idempotency theorem at the concrete record
`wR` and the empty prior store. -/
theorem write_idempotent_of_id_kept_witness :
    (((writeTracesToNotes [] [wR]).map TraceRecord.id).contains wR.id
        = true) ∧
    (consolidateTraces (writeTracesToNotes [] [wR])
        = writeTracesToNotes [] [wR]) ∧
    writeTracesToNotes (writeTracesToNotes [] [wR]) [wR]
      = writeTracesToNotes [] [wR] :=
  ⟨by decide, by decide, write_idempotent_of_id_kept [] wR (by decide) (by decide)⟩

/-- C6 fails as stated: a schema-valid record containing the range
`start_line = 5, end_line = 3` is accepted by the validator — the
schema checks `min(1)` on each line independently and never compares
`end_line` with `start_line`. -/
theorem validator_accepts_inverted_range :
    traceRecordOk invRangeRecord = true ∧
    ((invRangeRecord.files.flatMap fun f =>
        f.conversations.flatMap Conversation.ranges).any
      fun r => r.end_line < r.start_line) = true :=
  ⟨by decide, by decide⟩

/-- C6 (amended): validation succeeds only if every range of the
candidate has `start_line ≥ 1` and `end_line ≥ 1`; the relation
`end_line ≥ start_line` is not enforced. -/
theorem validator_range_bounds (t : TraceRecord)
    (h : traceRecordOk t = true) :
    ∀ f ∈ t.files, ∀ c ∈ f.conversations, ∀ r ∈ c.ranges,
      1 ≤ r.start_line ∧ 1 ≤ r.end_line := by
  intro f hf c hc r hr
  simp only [traceRecordOk, Bool.and_eq_true, List.all_eq_true] at h
  have hfile := h.2 f hf
  simp only [fileOk, List.all_eq_true] at hfile
  have hconv := hfile c hc
  simp only [conversationOk, Bool.and_eq_true, List.all_eq_true] at hconv
  have hrange := hconv.1.2 r hr
  simp only [rangeOk, Bool.and_eq_true, decide_eq_true_eq] at hrange
  exact ⟨hrange.1.1, hrange.1.2⟩

/-- Witness for the amended validator theorem at the concrete valid
record `wR`. -/
theorem validator_range_bounds_witness :
    traceRecordOk wR = true ∧
    (1 ≤ (mkRange 1 5).start_line ∧ 1 ≤ (mkRange 1 5).end_line) :=
  ⟨by decide,
   validator_range_bounds wR (by decide)
     { path := "w.ts", conversations := [convNoUrl [mkRange 1 5]] }
     (by decide) (convNoUrl [mkRange 1 5]) (by decide) (mkRange 1 5)
     (by decide)⟩

/-- C7: the read path returns the empty list (not an error) on the
known not-found exit statuses 1 and 128; a note body holding a single
record object yields the same records as the body holding the
one-element JSON array of it; and any other failure — a subprocess
failure with a different status, or an unparseable note body — is
propagated to the caller. -/
theorem readTracesFromNotes_tolerance :
    readTracesFromNotes (.err 1) = .ok [] ∧
    readTracesFromNotes (.err 128) = .ok [] ∧
    (∀ a : JAtom,
      readTracesFromNotes (.ok (.val (.atom a)))
        = readTracesFromNotes (.ok (.val (.arr [a])))) ∧
    (∀ status : Int, status ≠ 1 → status ≠ 128 →
      readTracesFromNotes (.err status) = .error (.gitError status)) ∧
    readTracesFromNotes (.ok .malformed) = .error .jsonError := by
  refine ⟨rfl, rfl, fun a => rfl, fun status h1 h128 => ?_, rfl⟩
  simp [readTracesFromNotes, h1, h128]

/-- Witness for the read-tolerance theorem at the concrete failing
status 2. -/
theorem readTracesFromNotes_tolerance_witness :
    (2 : Int) ≠ 1 ∧ (2 : Int) ≠ 128 ∧
    readTracesFromNotes (.err 2) = .error (.gitError 2) :=
  ⟨by decide, by decide,
   readTracesFromNotes_tolerance.2.2.2.1 2 (by decide) (by decide)⟩

/-- C8: when the staging buffer exists and at least one of its lines
parses and validates, draining into the HEAD revision skips every
malformed line, rewrites each surviving record's vcs revision to the
target revision, writes exactly the surviving records through the notes
store write, and deletes the buffer. -/
theorem attachStagingTraces_drains (lines : List (Option JAtom))
    (stored : List TraceRecord) (sha : String)
    (h : (lines.filterMap fun l =>
        (l.bind parseTraceRecord).map (setVcsRevision sha)) ≠ []) :
    attachStagingTraces ⟨some lines, stored⟩ (some sha)
      = ⟨none,
         writeTracesToNotes stored
           (lines.filterMap fun l =>
             (l.bind parseTraceRecord).map (setVcsRevision sha))⟩ := by
  have hdef : attachStagingTraces ⟨some lines, stored⟩ (some sha)
      = if (lines.filterMap fun l =>
            (l.bind parseTraceRecord).map (setVcsRevision sha)).isEmpty
        then ⟨some lines, stored⟩
        else ⟨none,
          writeTracesToNotes stored
            (lines.filterMap fun l =>
              (l.bind parseTraceRecord).map (setVcsRevision sha))⟩ := rfl
  cases htr : lines.filterMap fun l =>
      (l.bind parseTraceRecord).map (setVcsRevision sha) with
  | nil => exact absurd htr h
  | cons a as =>
    rw [hdef, htr]
    rfl

/-- Witness for the staging-drain theorem: a buffer of two valid lines
and one malformed line, drained into an empty store, attaches exactly
two records and leaves no buffer. -/
theorem attachStagingTraces_drains_witness :
    (([some (.record stagedR1), none,
       some (.record stagedR2)] : List (Option JAtom)).filterMap
        (fun l => (l.bind parseTraceRecord).map (setVcsRevision "abc123"))
      ≠ []) ∧
    attachStagingTraces
        ⟨some [some (.record stagedR1), none, some (.record stagedR2)], []⟩
        (some "abc123")
      = ⟨none,
         writeTracesToNotes []
           (([some (.record stagedR1), none,
              some (.record stagedR2)] : List (Option JAtom)).filterMap
             fun l =>
               (l.bind parseTraceRecord).map (setVcsRevision "abc123"))⟩ ∧
    (attachStagingTraces
        ⟨some [some (.record stagedR1), none, some (.record stagedR2)], []⟩
        (some "abc123")).stored.length = 2 ∧
    (attachStagingTraces
        ⟨some [some (.record stagedR1), none, some (.record stagedR2)], []⟩
        (some "abc123")).staging = none :=
  ⟨by decide,
   attachStagingTraces_drains
     [some (.record stagedR1), none, some (.record stagedR2)] [] "abc123"
     (by decide),
   by decide, by decide⟩

/-- C3 fails as stated: when the first conversation of a group already
holds a duplicated `1-2` range pair, the merged conversation produced by
consolidation still contains that duplicate pair. -/
theorem consolidate_merged_range_dup_cex :
    ¬ (∀ t ∈ consolidateTraces [dupA, dupB], ∀ f ∈ t.files,
        ∀ c ∈ f.conversations, (c.ranges.map rangeKey).Nodup) := by decide

/-- The range-union loop keeps the accumulated keys duplicate-free when
they start duplicate-free. -/
theorem addRangesGo_nodup (rs : List Range) (acc : List Range)
    (hnd : (acc.map rangeKey).Nodup) :
    ((addRangesGo acc (acc.map rangeKey) rs).map rangeKey).Nodup := by
  induction rs generalizing acc with
  | nil => simpa [addRangesGo] using hnd
  | cons r rs ih =>
    simp only [addRangesGo]
    split
    · exact ih acc hnd
    · next hc =>
      have hmem : rangeKey r ∉ acc.map rangeKey := by
        intro hm
        exact hc (by simpa using hm)
      have hmap : (acc ++ [r]).map rangeKey
          = acc.map rangeKey ++ [rangeKey r] := by simp
      have hnd' : ((acc ++ [r]).map rangeKey).Nodup := by
        rw [hmap]
        exact List.Nodup.append hnd (List.nodup_singleton _)
          (by simpa [List.disjoint_singleton] using hmem)
      have := ih (acc ++ [r]) hnd'
      rwa [hmap] at this

/-- C3 (amended): merging two conversations with identical contributor
key never introduces a duplicate `start_line-end_line` pair, provided
the accumulated conversation's range list was itself duplicate-free:
the union of the two range lists is then duplicate-free, whatever
overlap the two inputs had. (Duplicates already present inside the
accumulated list are preserved, which is what the counterexample
exhibits.) -/
theorem addRanges_preserves_nodup (existing newRanges : List Range)
    (h : (existing.map rangeKey).Nodup) :
    ((addRanges existing newRanges).map rangeKey).Nodup :=
  addRangesGo_nodup newRanges existing h

/-- Witness for the amended range-dedup theorem on overlapping concrete
range lists. -/
theorem addRanges_preserves_nodup_witness :
    (([mkRange 1 2]).map rangeKey).Nodup ∧
    ((addRanges [mkRange 1 2]
        [mkRange 1 2, mkRange 3 4, mkRange 3 4]).map rangeKey).Nodup :=
  ⟨by decide,
   addRanges_preserves_nodup [mkRange 1 2]
     [mkRange 1 2, mkRange 3 4, mkRange 3 4] (by decide)⟩

/-- Pointwise length bound lifted through `flatMap`. -/
theorem length_flatMap_le_of_le {α β γ : Type} (l : List α)
    (f : α → List β) (g : α → List γ)
    (h : ∀ a ∈ l, (f a).length ≤ (g a).length) :
    (l.flatMap f).length ≤ (l.flatMap g).length := by
  induction l with
  | nil => simp
  | cons a as ih =>
    simp only [List.flatMap_cons, List.length_append]
    exact Nat.add_le_add (h a (List.mem_cons_self a as))
      (ih fun x hx => h x (List.mem_cons_of_mem a hx))

/-- Pointwise length equality lifted through `flatMap`. -/
theorem length_flatMap_eq_of_eq {α β γ : Type} (l : List α)
    (f : α → List β) (g : α → List γ)
    (h : ∀ a ∈ l, (f a).length = (g a).length) :
    (l.flatMap f).length = (l.flatMap g).length := by
  induction l with
  | nil => simp
  | cons a as ih =>
    simp only [List.flatMap_cons, List.length_append]
    rw [h a (List.mem_cons_self a as),
        ih fun x hx => h x (List.mem_cons_of_mem a hx)]

/-- Filtering away elements that contribute nothing does not change a
`flatMap`. -/
theorem flatMap_filter_eq {α β : Type} (l : List α) (p : α → Bool)
    (g : α → List β) (h : ∀ a ∈ l, p a = false → g a = []) :
    (l.filter p).flatMap g = l.flatMap g := by
  induction l with
  | nil => simp
  | cons a as ih =>
    have ih' := ih fun x hx => h x (List.mem_cons_of_mem a hx)
    cases hp : p a with
    | true => simp [List.filter_cons, hp, ih']
    | false =>
      simp [List.filter_cons, hp, ih', h a (List.mem_cons_self a as) hp]

/-- A `filterMap` whose function always succeeds keeps the length. -/
theorem length_filterMap_of_all_some {α β : Type} (l : List α)
    (f : α → Option β) (h : ∀ a ∈ l, (f a).isSome = true) :
    (l.filterMap f).length = l.length := by
  induction l with
  | nil => simp
  | cons a as ih =>
    obtain ⟨b, hb⟩ := Option.isSome_iff_exists.mp
      (h a (List.mem_cons_self a as))
    simp [List.filterMap_cons, hb,
      ih fun x hx => h x (List.mem_cons_of_mem a hx)]

/-- C4: the matcher is a filter, never an inflator — for every stored
record set and every changed file, the number of ranges the matcher
returns for that file is at most the number of ranges recorded for that
file's path, and when the changed-line set computed for the file is
empty the two counts are equal (every recorded range is retained). -/
theorem analyzeCommit_is_filter (traces : List TraceRecord)
    (fc : FileChange) :
    (analyzedRangesFor traces fc).length
        ≤ (recordedRangesFor traces fc.path).length ∧
    (fc.changes = [] →
      (analyzedRangesFor traces fc).length
        = (recordedRangesFor traces fc.path).length) := by
  have hrec : recordedRangesFor traces fc.path
      = (traces.filter fun t => t.files.any fun f => f.path == fc.path).flatMap
          fun t => t.files.flatMap fun f =>
            if f.path == fc.path then f.conversations.flatMap Conversation.ranges
            else [] := by
    rw [recordedRangesFor]
    symm
    apply flatMap_filter_eq
    intro t ht hp
    rw [List.flatMap_eq_nil_iff]
    intro f hf
    have : (f.path == fc.path) = false := by
      have := List.any_eq_false.mp hp f hf
      simpa using this
    simp [this]
  rw [hrec]
  constructor
  · apply length_flatMap_le_of_le
    intro t ht
    apply length_flatMap_le_of_le
    intro f hf
    by_cases hpf : (f.path == fc.path) = true
    · simp only [hpf, if_true]
      apply length_flatMap_le_of_le
      intro conv hc
      exact List.length_filterMap_le _ _
    · simp [hpf]
  · intro hch
    apply length_flatMap_eq_of_eq
    intro t ht
    apply length_flatMap_eq_of_eq
    intro f hf
    by_cases hpf : (f.path == fc.path) = true
    · simp only [hpf, if_true]
      apply length_flatMap_eq_of_eq
      intro conv hc
      rw [hch]
      apply length_filterMap_of_all_some
      intro r hr
      simp [overlapsChanges]
    · simp [hpf]

/-- Witness for the matcher-filter theorem: a rename-like file change
with an empty changed-line set against the stored record `wR`. -/
theorem analyzeCommit_is_filter_witness :
    (analyzedRangesFor [wR]
        { path := "w.ts", additions := 0, deletions := 0, changes := [] }).length
      ≤ (recordedRangesFor [wR] "w.ts").length ∧
    (analyzedRangesFor [wR]
        { path := "w.ts", additions := 0, deletions := 0, changes := [] }).length
      = (recordedRangesFor [wR] "w.ts").length :=
  ⟨(analyzeCommit_is_filter [wR]
      { path := "w.ts", additions := 0, deletions := 0, changes := [] }).1,
   (analyzeCommit_is_filter [wR]
      { path := "w.ts", additions := 0, deletions := 0, changes := [] }).2 rfl⟩

/-- A string that starts with a longer pattern starts with every
shorter pattern that extends to it. -/
theorem startsWithL_mono (l p q : List Char)
    (h : startsWithL l (p ++ q) = true) : startsWithL l p = true := by
  induction p generalizing l with
  | nil => cases l <;> rfl
  | cons a as ih =>
    cases l with
    | nil => simp [startsWithL] at h
    | cons c cs =>
      simp only [List.cons_append, startsWithL, Bool.and_eq_true] at h ⊢
      exact ⟨h.1, ih cs h.2⟩

/-- Strings starting with different head characters cannot share both
single-character test results. -/
theorem startsWithL_head_ne (l : List Char) (a b : Char) (p q : List Char)
    (hab : (a == b) = false) (h : startsWithL l (a :: p) = true) :
    startsWithL l (b :: q) = false := by
  cases l with
  | nil => simp [startsWithL] at h
  | cons c cs =>
    simp only [startsWithL, Bool.and_eq_true] at h
    have hca : c = a := by
      have := h.1
      simpa using this
    subst hca
    simp [startsWithL, hab]

/-- `startsWith` mono at the string level: a test against `p ++ q`
succeeding implies the test against `p` succeeds. -/
theorem startsWithS_mono (s p q : String)
    (h : startsWithS s (p ++ q) = true) : startsWithS s p = true := by
  have h' : startsWithL s.data ((p ++ q).data) = true := h
  rw [String.data_append p q] at h'
  exact startsWithL_mono s.data p.data q.data h'

/-- C5: cursor semantics of the diff-body loop, for any parser state
whose current file is tracked in the `--numstat` file list. A line
beginning with `+` (and not `+++`) is recorded as an added line at the
cursor, which then increments; a line beginning with `-` (and not
`---`) is recorded as a removed line at the cursor, which does not
increment; and any other content line — not a header, not starting
with `@`, with non-whitespace content — increments the cursor without
recording anything. -/
theorem diff_cursor_semantics (st : DiffState) (line : String)
    (hfound : (st.files.any fun f => f.path == st.currentFile) = true) :
    (startsWithS line "+" = true → startsWithS line "+++" = false →
      processDiffLine st line
        = { st with
            files := pushChange st.files st.currentFile
              { line := st.lineNumber, type := "added" },
            lineNumber := st.lineNumber + 1 }) ∧
    (startsWithS line "-" = true → startsWithS line "---" = false →
      processDiffLine st line
        = { st with
            files := pushChange st.files st.currentFile
              { line := st.lineNumber, type := "removed" } }) ∧
    (startsWithS line "+" = false → startsWithS line "-" = false →
      startsWithS line "@" = false → trimNonempty line.data = true →
      processDiffLine st line = { st with lineNumber := st.lineNumber + 1 }) := by
  refine ⟨fun hp h3 => ?_, fun hm h3 => ?_, fun hp hm ha htrim => ?_⟩
  · have hd : startsWithL line.data ('+' :: ([] : List Char)) = true := hp
    have hb : startsWithS line "+++ b/" = false := by
      cases hx : startsWithS line "+++ b/" with
      | false => rfl
      | true =>
        exfalso
        have e1 : ("+++ b/" : String) = "+++" ++ " b/" := by decide
        rw [e1] at hx
        rw [startsWithS_mono line "+++" " b/" hx] at h3
        exact Bool.noConfusion h3
    have hma : startsWithS line "--- a/" = false :=
      startsWithL_head_ne line.data '+' '-' [] ("-- a/".data) (by decide) hd
    have hat : startsWithS line "@@" = false :=
      startsWithL_head_ne line.data '+' '@' [] ("@".data) (by decide) hd
    simp [processDiffLine, hb, hma, hat, hp, h3, hfound]
  · have hd : startsWithL line.data ('-' :: ([] : List Char)) = true := hm
    have hb : startsWithS line "+++ b/" = false :=
      startsWithL_head_ne line.data '-' '+' [] ("++ b/".data) (by decide) hd
    have hpl : startsWithS line "+" = false :=
      startsWithL_head_ne line.data '-' '+' [] ([] : List Char) (by decide) hd
    have hma : startsWithS line "--- a/" = false := by
      cases hx : startsWithS line "--- a/" with
      | false => rfl
      | true =>
        exfalso
        have e1 : ("--- a/" : String) = "---" ++ " a/" := by decide
        rw [e1] at hx
        rw [startsWithS_mono line "---" " a/" hx] at h3
        exact Bool.noConfusion h3
    have hat : startsWithS line "@@" = false :=
      startsWithL_head_ne line.data '-' '@' [] ("@".data) (by decide) hd
    simp [processDiffLine, hb, hma, hat, hm, hpl, h3, hfound]
  · have hb : startsWithS line "+++ b/" = false := by
      cases hx : startsWithS line "+++ b/" with
      | false => rfl
      | true =>
        exfalso
        have e1 : ("+++ b/" : String) = "+" ++ "++ b/" := by decide
        rw [e1] at hx
        rw [startsWithS_mono line "+" "++ b/" hx] at hp
        exact Bool.noConfusion hp
    have hma : startsWithS line "--- a/" = false := by
      cases hx : startsWithS line "--- a/" with
      | false => rfl
      | true =>
        exfalso
        have e1 : ("--- a/" : String) = "-" ++ "-- a/" := by decide
        rw [e1] at hx
        rw [startsWithS_mono line "-" "-- a/" hx] at hm
        exact Bool.noConfusion hm
    have hat : startsWithS line "@@" = false := by
      cases hx : startsWithS line "@@" with
      | false => rfl
      | true =>
        exfalso
        have e1 : ("@@" : String) = "@" ++ "@" := by decide
        rw [e1] at hx
        rw [startsWithS_mono line "@" "@" hx] at ha
        exact Bool.noConfusion ha
    simp [processDiffLine, hb, hma, hat, hp, hm, ha, htrim]

/-- Witness for the cursor-semantics theorem on the three line shapes
`"+x"`, `"-x"` and `"x"` at a tracked-file state. -/
theorem diff_cursor_semantics_witness :
    processDiffLine wSt "+x"
      = { wSt with
          files := pushChange wSt.files wSt.currentFile
            { line := wSt.lineNumber, type := "added" },
          lineNumber := wSt.lineNumber + 1 } ∧
    processDiffLine wSt "-x"
      = { wSt with
          files := pushChange wSt.files wSt.currentFile
            { line := wSt.lineNumber, type := "removed" } } ∧
    processDiffLine wSt "x" = { wSt with lineNumber := wSt.lineNumber + 1 } :=
  ⟨(diff_cursor_semantics wSt "+x" (by decide)).1 (by decide) (by decide),
   (diff_cursor_semantics wSt "-x" (by decide)).2.1 (by decide) (by decide),
   (diff_cursor_semantics wSt "x" (by decide)).2.2 (by decide) (by decide)
     (by decide) (by decide)⟩

theorem convTypeTotal_cons (c : Conversation) (cs : List Conversation) (ty : String) :
    convTypeTotal (c :: cs) ty
      = (if contributorTypeJS c = ty then c.ranges.length else 0)
        + convTypeTotal cs ty := by
  simp only [convTypeTotal, List.filter_cons, decide_eq_true_eq]
  split_ifs <;> simp

theorem convModelTotal_cons (c : Conversation) (cs : List Conversation) (m : String) :
    convModelTotal (c :: cs) m
      = (if truthyStr (c.contributor.bind Contributor.model_id) = some m
          then c.ranges.length else 0)
        + convModelTotal cs m := by
  simp only [convModelTotal, List.filter_cons, decide_eq_true_eq]
  split_ifs <;> simp

theorem reportConvStep_spec (s : ReportStats) (conv : Conversation) :
    (reportConvStep s conv).totalTraces = s.totalTraces ∧
    (reportConvStep s conv).totalFiles = s.totalFiles ∧
    (reportConvStep s conv).aiContributions
      = s.aiContributions
        + (if contributorTypeJS conv = "ai" then conv.ranges.length else 0) ∧
    (reportConvStep s conv).humanContributions
      = s.humanContributions
        + (if contributorTypeJS conv = "human" then conv.ranges.length else 0) ∧
    (reportConvStep s conv).mixedContributions
      = s.mixedContributions
        + (if contributorTypeJS conv = "mixed" then conv.ranges.length else 0) ∧
    (∀ m, (reportConvStep s conv).models m
      = s.models m
        + (if truthyStr (conv.contributor.bind Contributor.model_id) = some m
            then conv.ranges.length else 0)) ∧
    (∀ n, (reportConvStep s conv).tools n = s.tools n) := by
  refine ⟨?_, ?_, ?_, ?_, ?_, fun m => ?_, fun n => ?_⟩ <;>
    simp only [reportConvStep, bumpCounter] <;>
    split <;> split_ifs <;> simp_all [bumpCounter] <;>
    exact fun hh => absurd hh.symm (by assumption)

theorem reportConvFold_spec (convs : List Conversation) (s : ReportStats) :
    (convs.foldl reportConvStep s).totalTraces = s.totalTraces ∧
    (convs.foldl reportConvStep s).totalFiles = s.totalFiles ∧
    (convs.foldl reportConvStep s).aiContributions
      = s.aiContributions + convTypeTotal convs "ai" ∧
    (convs.foldl reportConvStep s).humanContributions
      = s.humanContributions + convTypeTotal convs "human" ∧
    (convs.foldl reportConvStep s).mixedContributions
      = s.mixedContributions + convTypeTotal convs "mixed" ∧
    (∀ m, (convs.foldl reportConvStep s).models m
      = s.models m + convModelTotal convs m) ∧
    (∀ n, (convs.foldl reportConvStep s).tools n = s.tools n) := by
  induction convs generalizing s with
  | nil => simp [convTypeTotal, convModelTotal]
  | cons c cs ih =>
    have hstep := reportConvStep_spec s c
    have hrec := ih (reportConvStep s c)
    simp only [List.foldl_cons]
    refine ⟨?_, ?_, ?_, ?_, ?_, fun m => ?_, fun n => ?_⟩
    · rw [hrec.1, hstep.1]
    · rw [hrec.2.1, hstep.2.1]
    · rw [hrec.2.2.1, hstep.2.2.1, convTypeTotal_cons]
      omega
    · rw [hrec.2.2.2.1, hstep.2.2.2.1, convTypeTotal_cons]
      omega
    · rw [hrec.2.2.2.2.1, hstep.2.2.2.2.1, convTypeTotal_cons]
      omega
    · rw [hrec.2.2.2.2.2.1 m, hstep.2.2.2.2.2.1 m, convModelTotal_cons]
      omega
    · rw [hrec.2.2.2.2.2.2 n, hstep.2.2.2.2.2.2 n]

theorem convTypeTotal_append (xs ys : List Conversation) (ty : String) :
    convTypeTotal (xs ++ ys) ty = convTypeTotal xs ty + convTypeTotal ys ty := by
  simp [convTypeTotal, List.filter_append]

theorem convModelTotal_append (xs ys : List Conversation) (m : String) :
    convModelTotal (xs ++ ys) m = convModelTotal xs m + convModelTotal ys m := by
  simp [convModelTotal, List.filter_append]

theorem reportFileFold_spec (files : List File) (acc : ReportStats × List String) :
    (files.foldl reportFileStep acc).1.totalTraces = acc.1.totalTraces ∧
    (files.foldl reportFileStep acc).1.totalFiles = acc.1.totalFiles ∧
    (files.foldl reportFileStep acc).1.aiContributions
      = acc.1.aiContributions
        + convTypeTotal (files.flatMap File.conversations) "ai" ∧
    (files.foldl reportFileStep acc).1.humanContributions
      = acc.1.humanContributions
        + convTypeTotal (files.flatMap File.conversations) "human" ∧
    (files.foldl reportFileStep acc).1.mixedContributions
      = acc.1.mixedContributions
        + convTypeTotal (files.flatMap File.conversations) "mixed" ∧
    (∀ m, (files.foldl reportFileStep acc).1.models m
      = acc.1.models m + convModelTotal (files.flatMap File.conversations) m) ∧
    (∀ n, (files.foldl reportFileStep acc).1.tools n = acc.1.tools n) ∧
    (files.foldl reportFileStep acc).2
      = (files.map File.path).foldl addSet acc.2 := by
  induction files generalizing acc with
  | nil => simp [convTypeTotal, convModelTotal]
  | cons f fs ih =>
    have hconv := reportConvFold_spec f.conversations acc.1
    have hrec := ih (reportFileStep acc f)
    have hfst : (reportFileStep acc f).1 = f.conversations.foldl reportConvStep acc.1 := rfl
    have hsnd : (reportFileStep acc f).2 = addSet acc.2 f.path := rfl
    simp only [List.foldl_cons, List.flatMap_cons, List.map_cons]
    refine ⟨?_, ?_, ?_, ?_, ?_, fun m => ?_, fun n => ?_, ?_⟩
    · rw [hrec.1, hfst, hconv.1]
    · rw [hrec.2.1, hfst, hconv.2.1]
    · rw [hrec.2.2.1, hfst, hconv.2.2.1, convTypeTotal_append]
      omega
    · rw [hrec.2.2.2.1, hfst, hconv.2.2.2.1, convTypeTotal_append]
      omega
    · rw [hrec.2.2.2.2.1, hfst, hconv.2.2.2.2.1, convTypeTotal_append]
      omega
    · rw [hrec.2.2.2.2.2.1 m, hfst, hconv.2.2.2.2.2.1 m, convModelTotal_append]
      omega
    · rw [hrec.2.2.2.2.2.2.1 n, hfst, hconv.2.2.2.2.2.2 n]
    · rw [hrec.2.2.2.2.2.2.2, hsnd]

theorem toolTraceTotal_cons (t : TraceRecord) (ts : List TraceRecord) (n : String) :
    toolTraceTotal (t :: ts) n
      = (if truthyStr (t.tool.map Tool.name) = some n then 1 else 0)
        + toolTraceTotal ts n := by
  simp only [toolTraceTotal, List.filter_cons, decide_eq_true_eq]
  split_ifs <;> simp [Nat.add_comm]

theorem allConversations_cons (t : TraceRecord) (ts : List TraceRecord) :
    allConversations (t :: ts)
      = t.files.flatMap File.conversations ++ allConversations ts := by
  simp [allConversations, List.flatMap_cons, List.flatMap_append]

theorem reportTraceStep_spec (acc : ReportStats × List String) (t : TraceRecord) :
    (reportTraceStep acc t).1.totalTraces = acc.1.totalTraces ∧
    (reportTraceStep acc t).1.totalFiles = acc.1.totalFiles ∧
    (reportTraceStep acc t).1.aiContributions
      = acc.1.aiContributions
        + convTypeTotal (t.files.flatMap File.conversations) "ai" ∧
    (reportTraceStep acc t).1.humanContributions
      = acc.1.humanContributions
        + convTypeTotal (t.files.flatMap File.conversations) "human" ∧
    (reportTraceStep acc t).1.mixedContributions
      = acc.1.mixedContributions
        + convTypeTotal (t.files.flatMap File.conversations) "mixed" ∧
    (∀ m, (reportTraceStep acc t).1.models m
      = acc.1.models m + convModelTotal (t.files.flatMap File.conversations) m) ∧
    (∀ n, (reportTraceStep acc t).1.tools n
      = acc.1.tools n
        + (if truthyStr (t.tool.map Tool.name) = some n then 1 else 0)) ∧
    (reportTraceStep acc t).2 = (t.files.map File.path).foldl addSet acc.2 := by
  have hfiles := reportFileFold_spec t.files acc
  unfold reportTraceStep
  cases htool : t.tool with
  | none =>
    refine ⟨hfiles.1, hfiles.2.1, hfiles.2.2.1, hfiles.2.2.2.1,
      hfiles.2.2.2.2.1, hfiles.2.2.2.2.2.1, fun n => ?_,
      hfiles.2.2.2.2.2.2.2⟩
    rw [hfiles.2.2.2.2.2.2.1 n]
    simp [truthyStr]
  | some tool =>
    by_cases hname : tool.name = ""
    · simp only [hname, if_true]
      refine ⟨hfiles.1, hfiles.2.1, hfiles.2.2.1, hfiles.2.2.2.1,
        hfiles.2.2.2.2.1, hfiles.2.2.2.2.2.1, fun n => ?_,
        hfiles.2.2.2.2.2.2.2⟩
      rw [hfiles.2.2.2.2.2.2.1 n]
      simp [truthyStr, hname]
    · simp only [hname, if_false]
      refine ⟨hfiles.1, hfiles.2.1, hfiles.2.2.1, hfiles.2.2.2.1,
        hfiles.2.2.2.2.1, hfiles.2.2.2.2.2.1, fun n => ?_,
        hfiles.2.2.2.2.2.2.2⟩
      simp only [bumpCounter]
      have hts : truthyStr (Option.map Tool.name (some tool))
          = some tool.name := by
        simp [truthyStr, hname]
      by_cases hn : n = tool.name
      · subst hn
        rw [if_pos rfl, hfiles.2.2.2.2.2.2.1 tool.name, hts, if_pos rfl]
      · rw [if_neg hn, hfiles.2.2.2.2.2.2.1 n, hts,
          if_neg (fun h : some tool.name = some n =>
            hn (Option.some.inj h).symm)]
        rfl

theorem reportTraceFold_spec (ts : List TraceRecord)
    (acc : ReportStats × List String) :
    (ts.foldl reportTraceStep acc).1.totalTraces = acc.1.totalTraces ∧
    (ts.foldl reportTraceStep acc).1.totalFiles = acc.1.totalFiles ∧
    (ts.foldl reportTraceStep acc).1.aiContributions
      = acc.1.aiContributions + convTypeTotal (allConversations ts) "ai" ∧
    (ts.foldl reportTraceStep acc).1.humanContributions
      = acc.1.humanContributions + convTypeTotal (allConversations ts) "human" ∧
    (ts.foldl reportTraceStep acc).1.mixedContributions
      = acc.1.mixedContributions + convTypeTotal (allConversations ts) "mixed" ∧
    (∀ m, (ts.foldl reportTraceStep acc).1.models m
      = acc.1.models m + convModelTotal (allConversations ts) m) ∧
    (∀ n, (ts.foldl reportTraceStep acc).1.tools n
      = acc.1.tools n + toolTraceTotal ts n) ∧
    (ts.foldl reportTraceStep acc).2
      = ((ts.flatMap TraceRecord.files).map File.path).foldl addSet acc.2 := by
  induction ts generalizing acc with
  | nil => simp [allConversations, convTypeTotal, convModelTotal, toolTraceTotal]
  | cons t ts ih =>
    have hstep := reportTraceStep_spec acc t
    have hrec := ih (reportTraceStep acc t)
    simp only [List.foldl_cons, allConversations_cons, List.flatMap_cons,
      List.map_append]
    refine ⟨?_, ?_, ?_, ?_, ?_, fun m => ?_, fun n => ?_, ?_⟩
    · rw [hrec.1, hstep.1]
    · rw [hrec.2.1, hstep.2.1]
    · rw [hrec.2.2.1, hstep.2.2.1, convTypeTotal_append]
      omega
    · rw [hrec.2.2.2.1, hstep.2.2.2.1, convTypeTotal_append]
      omega
    · rw [hrec.2.2.2.2.1, hstep.2.2.2.2.1, convTypeTotal_append]
      omega
    · rw [hrec.2.2.2.2.2.1 m, hstep.2.2.2.2.2.1 m, convModelTotal_append]
      omega
    · rw [hrec.2.2.2.2.2.2.1 n, hstep.2.2.2.2.2.2.1 n, toolTraceTotal_cons]
      omega
    · rw [hrec.2.2.2.2.2.2.2, hstep.2.2.2.2.2.2.2, List.foldl_append]

theorem addSet_nodup (s : List String) (x : String) (h : s.Nodup) :
    (addSet s x).Nodup := by
  unfold addSet
  split
  · exact h
  · next hc =>
    refine List.Nodup.append h (List.nodup_singleton x) ?_
    intro a ha hax
    simp only [List.mem_singleton] at hax
    subst hax
    exact hc (by simpa using ha)

theorem addSet_toFinset (s : List String) (x : String) :
    (addSet s x).toFinset = insert x s.toFinset := by
  unfold addSet
  split
  · next hc =>
    have hx : x ∈ s := by simpa using hc
    ext a
    simp only [List.mem_toFinset, Finset.mem_insert]
    constructor
    · exact fun h => Or.inr h
    · rintro (rfl | h)
      · exact hx
      · exact h
  · ext a
    simp [List.mem_toFinset, or_comm]

theorem foldl_addSet_nodup (l acc : List String) (h : acc.Nodup) :
    (l.foldl addSet acc).Nodup := by
  induction l generalizing acc with
  | nil => simpa using h
  | cons x xs ih => exact ih (addSet acc x) (addSet_nodup acc x h)

theorem foldl_addSet_toFinset (l acc : List String) :
    (l.foldl addSet acc).toFinset = acc.toFinset ∪ l.toFinset := by
  induction l generalizing acc with
  | nil => simp
  | cons x xs ih =>
    simp only [List.foldl_cons, ih (addSet acc x), addSet_toFinset,
      List.toFinset_cons]
    ext a
    simp only [Finset.mem_union, Finset.mem_insert]
    tauto

/-- C9: the aggregator fold is correct — `totalTraces` is the number of
input records, `totalFiles` the number of distinct file paths, each
contributor-type counter is the total range count of the conversations
of that type, each model counter the total range count of the
conversations carrying that (truthy) model id, and each tool counter
counts one per record carrying that (truthy) tool name, regardless of
the record's files or ranges. -/
theorem generateReport_correct (traces : List TraceRecord) :
    (generateReport traces).totalTraces = traces.length ∧
    (generateReport traces).totalFiles = distinctFileCount traces ∧
    (generateReport traces).aiContributions = typeRangeTotal traces "ai" ∧
    (generateReport traces).humanContributions
      = typeRangeTotal traces "human" ∧
    (generateReport traces).mixedContributions
      = typeRangeTotal traces "mixed" ∧
    (∀ m, (generateReport traces).models m = modelRangeTotal traces m) ∧
    (∀ n, (generateReport traces).tools n = toolTraceTotal traces n) := by
  have hfold := reportTraceFold_spec traces
    ({ totalTraces := traces.length, totalFiles := 0,
       aiContributions := 0, humanContributions := 0,
       mixedContributions := 0, models := fun _ => 0,
       tools := fun _ => 0 }, ([] : List String))
  rcases hsplit : traces.foldl reportTraceStep
      ({ totalTraces := traces.length, totalFiles := 0,
         aiContributions := 0, humanContributions := 0,
         mixedContributions := 0, models := fun _ => 0,
         tools := fun _ => 0 }, ([] : List String)) with ⟨stats, fileSet⟩
  rw [hsplit] at hfold
  dsimp only at hfold
  have hgen : generateReport traces
      = { stats with totalFiles := fileSet.length } := by
    unfold generateReport
    dsimp only
    rw [hsplit]
  rw [hgen]
  refine ⟨hfold.1, ?_, ?_, ?_, ?_, fun m => ?_, fun n => ?_⟩
  · show fileSet.length = distinctFileCount traces
    rw [hfold.2.2.2.2.2.2.2]
    have hnd := foldl_addSet_nodup
      ((traces.flatMap TraceRecord.files).map File.path) [] List.nodup_nil
    have htf := foldl_addSet_toFinset
      ((traces.flatMap TraceRecord.files).map File.path) []
    rw [distinctFileCount, ← List.toFinset_card_of_nodup hnd, htf]
    simp
  · rw [typeRangeTotal]
    simpa using hfold.2.2.1
  · rw [typeRangeTotal]
    simpa using hfold.2.2.2.1
  · rw [typeRangeTotal]
    simpa using hfold.2.2.2.2.1
  · rw [modelRangeTotal]
    simpa using hfold.2.2.2.2.2.1 m
  · simpa using hfold.2.2.2.2.2.2.1 n
